import Mathlib

/-!
Verification of the link/reroute topology core of a node-graph editing
library (litegraph).  The definitions below are a shallow embedding of the
TypeScript source: the `LLink` class and its operations are translated
field-for-field; JavaScript `Map`s become association lists with
first-occurrence lookup; JavaScript `Set`s become duplicate-free lists;
optional / `undefined` values become `Option`; thrown exceptions become
`Except`.  Node, link and reroute ids are JavaScript numbers restricted to
integers (`Int`), since the code uses `-1` as a sentinel.
-/

/-- Slot types in the source are `number | string`. -/
inductive ISlotType where
  | num (n : Int)
  | str (s : String)
deriving DecidableEq, Repr

/-- The string literal union type `"input" | "output"` used for
`toFloating`, `keepReroutes`, and the `floating.slotType` marker. -/
inductive SlotSide where
  | input
  | output
deriving DecidableEq, Repr

/-- JavaScript truthiness of an optional numeric id: `undefined` and `0`
are falsy, every other number is truthy (ids are integers, so `NaN` does
not arise). -/
def truthyId : Option Int → Bool
  | some v => v != 0
  | none => false

/-- The serialisable record shape `SerialisableLLink`:
`(id, type, origin_id, origin_slot, target_id, target_slot, parentId?)`.
`parentId = none` models the key being absent from the record.  The record
carries no ephemeral rendering fields (`_pos`, `path`, ...) — they do not
exist in this type, mirroring the fact that `asSerialisable` never emits
them. -/
structure SerialisableLLink where
  id : Int
  type : ISlotType
  origin_id : Int
  origin_slot : Int
  target_id : Int
  target_slot : Int
  parentId : Option Int
deriving DecidableEq, Repr

/-- The legacy positional array form
`[id, origin_id, origin_slot, target_id, target_slot, type]`. -/
structure SerialisedLLinkArray where
  id : Int
  origin_id : Int
  origin_slot : Int
  target_id : Int
  target_slot : Int
  type : ISlotType
deriving DecidableEq, Repr

/-- The `LLink` class: persistent fields only.  The rendering-only fields
of the source (`_pos`, `_data`, `path`, `_centreAngle`, `_dragging`,
colour) never interact with the topology operations modelled here and are
omitted. -/
structure LLink where
  id : Int
  type : ISlotType
  origin_id : Int
  origin_slot : Int
  target_id : Int
  target_slot : Int
  parentId : Option Int
deriving DecidableEq, Repr

namespace LLink

/-- `LLink.create(data)`: static factory, copies the seven fields of the
serialised record (the constructor assigns them verbatim). -/
def create (data : SerialisableLLink) : LLink :=
  { id := data.id
    type := data.type
    origin_id := data.origin_id
    origin_slot := data.origin_slot
    target_id := data.target_id
    target_slot := data.target_slot
    parentId := data.parentId }

/-- `LLink.createFromArray(data)` (deprecated in the source): positional
array form; `parentId` is not present in the array and is left
`undefined`. -/
def createFromArray (data : SerialisedLLinkArray) : LLink :=
  { id := data.id
    type := data.type
    origin_id := data.origin_id
    origin_slot := data.origin_slot
    target_id := data.target_id
    target_slot := data.target_slot
    parentId := none }

/-- Getter `isFloatingOutput`: origin is the `-1, -1` sentinel. -/
def isFloatingOutput (l : LLink) : Bool :=
  l.origin_id == -1 && l.origin_slot == -1

/-- Getter `isFloatingInput`: target is the `-1, -1` sentinel. -/
def isFloatingInput (l : LLink) : Bool :=
  l.target_id == -1 && l.target_slot == -1

/-- Getter `isFloating`: either side is detached. -/
def isFloating (l : LLink) : Bool :=
  l.isFloatingOutput || l.isFloatingInput

/-- `asSerialisable()`: plain record with the same named fields;
`copy.parentId` is assigned only when `this.parentId` is truthy, so a
falsy `parentId` (absent, or the number `0`) yields a record without the
key. -/
def asSerialisable (l : LLink) : SerialisableLLink :=
  { id := l.id
    type := l.type
    origin_id := l.origin_id
    origin_slot := l.origin_slot
    target_id := l.target_id
    target_slot := l.target_slot
    parentId := if truthyId l.parentId then l.parentId else none }

/-- `serialize()` (legacy): positional array. -/
def serialize (l : LLink) : SerialisedLLinkArray :=
  { id := l.id
    origin_id := l.origin_id
    origin_slot := l.origin_slot
    target_id := l.target_id
    target_slot := l.target_slot
    type := l.type }

/-- `toFloating(slotType, parentId)`: export a copy via `asSerialisable`,
set its id to `-1` and its `parentId` to the given reroute id, erase the
origin when `slotType` is `"input"` and the target when it is `"output"`,
then rebuild via `LLink.create`.  The receiver is only read
(`asSerialisable` builds a fresh record), never written. -/
def toFloating (l : LLink) (slotType : SlotSide) (parentId : Int) : LLink :=
  let e0 := l.asSerialisable
  let e1 : SerialisableLLink := { e0 with id := -1, parentId := some parentId }
  let e2 : SerialisableLLink :=
    match slotType with
    | .input => { e1 with origin_id := -1, origin_slot := -1 }
    | .output => { e1 with target_id := -1, target_slot := -1 }
  create e2

/-- `configure(o)` takes either a plain link record or the legacy
positional array. -/
inductive ConfigureArg where
  | ofLink (o : LLink)
  | ofArray (a : SerialisedLLinkArray)
deriving DecidableEq, Repr

/-- `configure(o)`: in-place wholesale overwrite.  The array branch writes
the six positional fields (leaving `parentId` as it was); the record
branch writes all seven fields. -/
def configure (l : LLink) (o : ConfigureArg) : LLink :=
  match o with
  | .ofArray a =>
      { l with
        id := a.id
        origin_id := a.origin_id
        origin_slot := a.origin_slot
        target_id := a.target_id
        target_slot := a.target_slot
        type := a.type }
  | .ofLink r =>
      { l with
        id := r.id
        type := r.type
        origin_id := r.origin_id
        origin_slot := r.origin_slot
        target_id := r.target_id
        target_slot := r.target_slot
        parentId := r.parentId }

/-- `hasOrigin(nodeId, outputIndex)`: exact match on the output side. -/
def hasOrigin (l : LLink) (nodeId : Int) (outputIndex : Int) : Bool :=
  l.origin_id == nodeId && l.origin_slot == outputIndex

/-- `hasTarget(nodeId, inputIndex)`: exact match on the input side. -/
def hasTarget (l : LLink) (nodeId : Int) (inputIndex : Int) : Bool :=
  l.target_id == nodeId && l.target_slot == inputIndex

end LLink

/-- A sample link used by concrete witnesses and examples. -/
def sampleLink : LLink :=
  { id := 1
    type := .num 0
    origin_id := 10
    origin_slot := 0
    target_id := 20
    target_slot := 1
    parentId := some 2 }

/-- A link that is already floating on the input side (target detached):
a legal state used by the counterexample to C5. -/
def floatingInputLink : LLink :=
  { id := 7
    type := .num 0
    origin_id := 3
    origin_slot := 0
    target_id := -1
    target_slot := -1
    parentId := none }

/-- C3: for every link `L`, `LLink.create (L.asSerialisable)` reproduces
`id`, `type`, `origin_id`, `origin_slot`, `target_id`, `target_slot`; a
truthy `parentId` is reproduced exactly, a falsy one is absent from both
the serialised record and the reconstructed link; and `asSerialisable`
never emits a falsy `parentId` key (and, by the shape of
`SerialisableLLink`, no ephemeral rendering fields). -/
theorem create_asSerialisable_roundtrip (L : LLink) :
    (LLink.create L.asSerialisable).id = L.id ∧
    (LLink.create L.asSerialisable).type = L.type ∧
    (LLink.create L.asSerialisable).origin_id = L.origin_id ∧
    (LLink.create L.asSerialisable).origin_slot = L.origin_slot ∧
    (LLink.create L.asSerialisable).target_id = L.target_id ∧
    (LLink.create L.asSerialisable).target_slot = L.target_slot ∧
    (truthyId L.parentId = true → (LLink.create L.asSerialisable).parentId = L.parentId) ∧
    (truthyId L.parentId = false →
      L.asSerialisable.parentId = none ∧ (LLink.create L.asSerialisable).parentId = none) ∧
    (∀ p : Int, L.asSerialisable.parentId = some p → truthyId (some p) = true) := by
  refine ⟨rfl, rfl, rfl, rfl, rfl, rfl, ?_, ?_, ?_⟩
  · intro h
    simp [LLink.create, LLink.asSerialisable, h]
  · intro h
    simp [LLink.create, LLink.asSerialisable, h]
  · intro p hp
    by_cases h : truthyId L.parentId = true
    · simp only [LLink.asSerialisable, h, if_pos] at hp
      rw [hp] at h
      exact h
    · simp only [LLink.asSerialisable, if_neg h] at hp
      cases hp

/-- Witness for C3 at the sample link. -/
theorem create_asSerialisable_roundtrip_witness :
    truthyId sampleLink.parentId = true ∧
    (LLink.create sampleLink.asSerialisable).parentId = sampleLink.parentId :=
  ⟨by decide, (create_asSerialisable_roundtrip sampleLink).2.2.2.2.2.2.1 (by decide)⟩

/-- C4: `toFloating slotType parentId` returns a link with id `-1` and the
given `parentId`; passing `"input"` erases the origin and keeps the
target, passing `"output"` erases the target and keeps the origin; `type`
is kept; the receiver is a pure input (the embedding operates on a copy,
as the source does via `asSerialisable`). -/
theorem toFloating_spec (l : LLink) (s : SlotSide) (pid : Int) :
    (l.toFloating s pid).id = -1 ∧
    (l.toFloating s pid).parentId = some pid ∧
    (l.toFloating s pid).type = l.type ∧
    (s = .input →
      (l.toFloating s pid).origin_id = -1 ∧
      (l.toFloating s pid).origin_slot = -1 ∧
      (l.toFloating s pid).target_id = l.target_id ∧
      (l.toFloating s pid).target_slot = l.target_slot) ∧
    (s = .output →
      (l.toFloating s pid).target_id = -1 ∧
      (l.toFloating s pid).target_slot = -1 ∧
      (l.toFloating s pid).origin_id = l.origin_id ∧
      (l.toFloating s pid).origin_slot = l.origin_slot) := by
  cases s <;>
    simp [LLink.toFloating, LLink.create, LLink.asSerialisable]

/-- Witness for C4 at the sample link, `"input"` side. -/
theorem toFloating_spec_witness :
    (sampleLink.toFloating .input 3).origin_id = -1 ∧
    (sampleLink.toFloating .input 3).target_id = sampleLink.target_id :=
  ⟨((toFloating_spec sampleLink .input 3).2.2.2.1 rfl).1,
   ((toFloating_spec sampleLink .input 3).2.2.2.1 rfl).2.2.1⟩

/-- C5 counterexample: the claim quantifies over every link and slot side,
but calling `toFloating "input"` on a link whose target is already the
`-1, -1` sentinel produces a link for which `isFloatingOutput` and
`isFloatingInput` are both true — "never both" fails. -/
theorem toFloating_both_floating_counterexample :
    (floatingInputLink.toFloating .input 3).isFloatingOutput = true ∧
    (floatingInputLink.toFloating .input 3).isFloatingInput = true := by
  decide

/-- C5 (amended): every link produced by `toFloating` satisfies at least
one of `isFloatingOutput` / `isFloatingInput` (never neither); and when
the side that `toFloating` retains is not already detached — in
particular for every link with both endpoints attached — exactly one of
the two holds. -/
theorem toFloating_exclusivity (l : LLink) (s : SlotSide) (pid : Int) :
    ((l.toFloating s pid).isFloatingOutput || (l.toFloating s pid).isFloatingInput) = true ∧
    ((match s with
      | .input => l.isFloatingInput
      | .output => l.isFloatingOutput) = false →
      (l.toFloating s pid).isFloatingOutput ≠ (l.toFloating s pid).isFloatingInput) := by
  refine ⟨?_, ?_⟩
  · cases s <;>
      simp [LLink.toFloating, LLink.create, LLink.asSerialisable,
        LLink.isFloatingOutput, LLink.isFloatingInput]
  · intro h
    cases s <;>
      simp only [LLink.isFloatingInput, LLink.isFloatingOutput] at h <;>
      simp [LLink.toFloating, LLink.create, LLink.asSerialisable,
        LLink.isFloatingOutput, LLink.isFloatingInput, h]

/-- Witness for C5 (amended) at the sample link, which has both endpoints
attached. -/
theorem toFloating_exclusivity_witness :
    sampleLink.isFloatingInput = false ∧
    (sampleLink.toFloating .input 3).isFloatingOutput ≠
      (sampleLink.toFloating .input 3).isFloatingInput :=
  ⟨by decide, (toFloating_exclusivity sampleLink .input 3).2 (by decide)⟩

/-- C7: `configure` overwrites wholesale for both input forms: a plain
record sets all seven fields, the legacy positional array sets the six
positional fields (leaving `parentId` untouched); and concretely
`configure [5, 10, 0, 20, 1, "FLOAT"]` yields
`id = 5, origin_id = 10, origin_slot = 0, target_id = 20,
target_slot = 1, type = "FLOAT"`. -/
theorem configure_spec (l r : LLink) (a : SerialisedLLinkArray) :
    ((l.configure (.ofLink r)).id = r.id ∧
     (l.configure (.ofLink r)).type = r.type ∧
     (l.configure (.ofLink r)).origin_id = r.origin_id ∧
     (l.configure (.ofLink r)).origin_slot = r.origin_slot ∧
     (l.configure (.ofLink r)).target_id = r.target_id ∧
     (l.configure (.ofLink r)).target_slot = r.target_slot ∧
     (l.configure (.ofLink r)).parentId = r.parentId) ∧
    ((l.configure (.ofArray a)).id = a.id ∧
     (l.configure (.ofArray a)).origin_id = a.origin_id ∧
     (l.configure (.ofArray a)).origin_slot = a.origin_slot ∧
     (l.configure (.ofArray a)).target_id = a.target_id ∧
     (l.configure (.ofArray a)).target_slot = a.target_slot ∧
     (l.configure (.ofArray a)).type = a.type ∧
     (l.configure (.ofArray a)).parentId = l.parentId) ∧
    ((sampleLink.configure (.ofArray
        { id := 5, origin_id := 10, origin_slot := 0, target_id := 20,
          target_slot := 1, type := .str ("FLOAT") })).id = 5 ∧
     (sampleLink.configure (.ofArray
        { id := 5, origin_id := 10, origin_slot := 0, target_id := 20,
          target_slot := 1, type := .str ("FLOAT") })).origin_id = 10 ∧
     (sampleLink.configure (.ofArray
        { id := 5, origin_id := 10, origin_slot := 0, target_id := 20,
          target_slot := 1, type := .str ("FLOAT") })).origin_slot = 0 ∧
     (sampleLink.configure (.ofArray
        { id := 5, origin_id := 10, origin_slot := 0, target_id := 20,
          target_slot := 1, type := .str ("FLOAT") })).target_id = 20 ∧
     (sampleLink.configure (.ofArray
        { id := 5, origin_id := 10, origin_slot := 0, target_id := 20,
          target_slot := 1, type := .str ("FLOAT") })).target_slot = 1 ∧
     (sampleLink.configure (.ofArray
        { id := 5, origin_id := 10, origin_slot := 0, target_id := 20,
          target_slot := 1, type := .str ("FLOAT") })).type = .str ("FLOAT")) := by
  refine ⟨⟨rfl, rfl, rfl, rfl, rfl, rfl, rfl⟩,
          ⟨rfl, rfl, rfl, rfl, rfl, rfl, rfl⟩,
          ⟨rfl, rfl, rfl, rfl, rfl, rfl⟩⟩

/-! ## Keyed collections

JavaScript `Map`s are modelled as association lists.  Lookup returns the
first entry with a matching key; in every state reachable through the
`Map` API the keys are duplicate-free, which the well-formedness
predicate below records. -/

/-- `Map.get`: first entry with the given key. -/
def mapGet {α : Type} (m : List (Int × α)) (k : Int) : Option α :=
  match m with
  | [] => none
  | (k', v) :: rest => if k' = k then some v else mapGet rest k

/-- In-place mutation of the entry stored under `k` (aliasing through the
map: writing a field of a `Map`-held object). -/
def mapModify {α : Type} (m : List (Int × α)) (k : Int) (f : α → α) : List (Int × α) :=
  match m with
  | [] => []
  | (k', v) :: rest =>
      if k' = k then (k', f v) :: rest else (k', v) :: mapModify rest k f

/-- `Map.delete`: removes the entry with the given key. -/
def mapDelete {α : Type} (m : List (Int × α)) (k : Int) : List (Int × α) :=
  match m with
  | [] => []
  | (k', v) :: rest => if k' = k then rest else (k', v) :: mapDelete rest k

/-- The key list of a map. -/
def mapKeys {α : Type} (m : List (Int × α)) : List Int :=
  m.map Prod.fst

theorem mapGet_modify_self {α : Type} (m : List (Int × α)) (k : Int) (f : α → α) :
    mapGet (mapModify m k f) k = (mapGet m k).map f := by
  induction m with
  | nil => rfl
  | cons hd tl ih =>
      obtain ⟨k', v⟩ := hd
      by_cases h : k' = k <;> simp [mapGet, mapModify, h, ih]

theorem mapGet_modify_ne {α : Type} (m : List (Int × α)) (k k' : Int) (f : α → α)
    (h : k ≠ k') : mapGet (mapModify m k f) k' = mapGet m k' := by
  induction m with
  | nil => rfl
  | cons hd tl ih =>
      obtain ⟨k'', v⟩ := hd
      by_cases h1 : k'' = k
      · subst h1
        simp [mapGet, mapModify, h]
      · by_cases h2 : k'' = k'
        · subst h2
          simp [mapGet, mapModify, h1]
        · simp [mapGet, mapModify, h1, h2, ih]

theorem mapGet_delete_ne {α : Type} (m : List (Int × α)) (k k' : Int)
    (h : k ≠ k') : mapGet (mapDelete m k) k' = mapGet m k' := by
  induction m with
  | nil => rfl
  | cons hd tl ih =>
      obtain ⟨k'', v⟩ := hd
      by_cases h1 : k'' = k
      · subst h1
        simp [mapGet, mapDelete, h]
      · by_cases h2 : k'' = k'
        · subst h2
          simp [mapGet, mapDelete, h1]
        · simp [mapGet, mapDelete, h1, h2, ih]

theorem mapKeys_modify {α : Type} (m : List (Int × α)) (k : Int) (f : α → α) :
    mapKeys (mapModify m k f) = mapKeys m := by
  induction m with
  | nil => rfl
  | cons hd tl ih =>
      obtain ⟨k', v⟩ := hd
      by_cases h : k' = k
      · simp [mapKeys, mapModify, h]
      · simp only [mapKeys, mapModify, if_neg h, List.map_cons]
        exact congrArg (k' :: ·) ih

theorem mapGet_eq_none_of_not_mem_keys {α : Type} (m : List (Int × α)) (k : Int)
    (h : k ∉ mapKeys m) : mapGet m k = none := by
  induction m with
  | nil => rfl
  | cons hd tl ih =>
      obtain ⟨k', v⟩ := hd
      simp only [mapKeys, List.map_cons, List.mem_cons] at h
      push_neg at h
      have h1 : ¬k' = k := fun hkk => h.1 hkk.symm
      simp [mapGet, h1, ih (by simpa [mapKeys] using h.2)]

theorem mapGet_delete_self {α : Type} (m : List (Int × α)) (k : Int)
    (hnd : (mapKeys m).Nodup) : mapGet (mapDelete m k) k = none := by
  induction m with
  | nil => rfl
  | cons hd tl ih =>
      obtain ⟨k', v⟩ := hd
      simp only [mapKeys, List.map_cons, List.nodup_cons] at hnd
      by_cases h : k' = k
      · subst h
        simp only [mapDelete, if_pos rfl]
        exact mapGet_eq_none_of_not_mem_keys tl k' (by simpa [mapKeys] using hnd.1)
      · simp [mapDelete, mapGet, h, ih (by simpa [mapKeys] using hnd.2)]

theorem mapKeys_delete_sublist {α : Type} (m : List (Int × α)) (k : Int) :
    (mapKeys (mapDelete m k)).Sublist (mapKeys m) := by
  induction m with
  | nil => simp [mapDelete, mapKeys]
  | cons hd tl ih =>
      obtain ⟨k', v⟩ := hd
      by_cases h : k' = k
      · simp only [mapDelete, if_pos h, mapKeys]
        exact List.sublist_cons_self k' (mapKeys tl)
      · simpa [mapDelete, mapKeys, h] using ih.cons₂ k'

theorem mapKeys_delete_nodup {α : Type} (m : List (Int × α)) (k : Int)
    (hnd : (mapKeys m).Nodup) : (mapKeys (mapDelete m k)).Nodup :=
  hnd.sublist (mapKeys_delete_sublist m k)

theorem mapGet_mem {α : Type} (m : List (Int × α)) (k : Int) (v : α)
    (h : mapGet m k = some v) : (k, v) ∈ m := by
  induction m with
  | nil => cases h
  | cons hd tl ih =>
      obtain ⟨k', v'⟩ := hd
      by_cases h1 : k' = k
      · subst h1
        have hv : v' = v := by simpa [mapGet] using h
        subst hv
        exact List.mem_cons_self _ _
      · simp only [mapGet, if_neg h1] at h
        exact List.mem_cons_of_mem _ (ih h)

/-! ## Reroute, node and network model

The `Reroute` class and the network container (`LGraph`) are not part of
the sources under verification; only their declarations and the spec
describe them.  The definitions below that carry a doc comment starting
with `Modelled from the spec:` are reconstructed from the spec's words. -/

/-- Modelled from the spec: the `Reroute` record
`(id, parentId?, linkIds, floatingLinkIds, floating?)` of section 3 and
the external-interface section.  `linkIds` and `floatingLinkIds` are
JavaScript `Set`s, modelled as duplicate-free lists; `floating` records
which side is detached.  The render-only position is omitted.  The class
itself is not under the verified sources. -/
structure Reroute where
  id : Int
  parentId : Option Int
  linkIds : List Int
  floatingLinkIds : List Int
  floating : Option SlotSide
deriving DecidableEq, Repr

/-- Modelled from the spec: the derived count
`totalLinks = |linkIds| + |floatingLinkIds|`. -/
def Reroute.totalLinks (r : Reroute) : Nat :=
  r.linkIds.length + r.floatingLinkIds.length

/-- A node output slot, as far as the render-link code consults it: the
slots live in the node's `outputs` array and are compared by identity,
modelled structurally. -/
structure INodeOutputSlot where
  name : String
  type : ISlotType
deriving DecidableEq, Repr

/-- A graph node: the identity used by the link topology core, plus the
output-slot array consulted by the render-link constructor. -/
structure LGraphNode where
  id : Int
  outputs : List INodeOutputSlot
deriving DecidableEq, Repr

/-- The `LinkNetwork` container: keyed collections of links, reroutes and
floating links, plus node lookup data.  (`floatingLinks` is keyed by link
id, as in `ReadonlyLinkNetwork`.) -/
structure LinkNetwork where
  links : List (Int × LLink)
  reroutes : List (Int × Reroute)
  floatingLinks : List (Int × LLink)
  nodes : List (Int × LGraphNode)
deriving DecidableEq, Repr

/-- `getNodeById(id)`: `null`/`undefined` input yields no node; otherwise
a map lookup. -/
def LinkNetwork.getNodeById (net : LinkNetwork) (id : Option Int) : Option LGraphNode :=
  match id with
  | none => none
  | some i => mapGet net.nodes i

/-- Modelled from the spec: `addFloatingLink(link)` "registers a link as
floating; returns the link" — the link is recorded in the network's
`floatingLinks` collection.  The method body is not under the verified
sources. -/
def LinkNetwork.addFloatingLink (net : LinkNetwork) (l : LLink) : LinkNetwork :=
  { net with floatingLinks := net.floatingLinks ++ [(l.id, l)] }

/-- Well-formedness of a network state, all of it guaranteed by the
JavaScript runtime for any state built through the `Map`/`Set` API: map
keys are unique, every reroute is stored under its own id, and the link-id
sets of reroutes hold no duplicates. -/
def NetWF (net : LinkNetwork) : Prop :=
  (mapKeys net.reroutes).Nodup ∧
  (∀ p ∈ net.reroutes, (Prod.snd p).id = Prod.fst p) ∧
  (mapKeys net.links).Nodup ∧
  (∀ p ∈ net.reroutes, (Prod.snd p).linkIds.Nodup)

instance (net : LinkNetwork) : Decidable (NetWF net) := by
  unfold NetWF
  infer_instance

/-- The result type of `findNextReroute`, mirroring the source's
`Reroute | undefined | null` union: a found reroute, the `undefined`
"not found" outcome, and the `null` infinite-loop sentinel. -/
inductive RerouteSearchResult where
  | found (r : Reroute)
  | notFound
  | loop
deriving DecidableEq, Repr

/-- Modelled from the spec: `Reroute.getReroutes()` — "own upstream chain,
producing the ordered sequence consumed by `LLink.getReroutes`", ordered
origin-nearest first and ending with the receiver; the traversal "must
track visited ids and terminate, signaling loop detection distinctly from
reaching the end" (`none` is the loop signal).  A `parentId` that does not
resolve ends the chain.  The fuel argument only bounds recursion; with
fuel exceeding the collection size it is never exhausted before the
visited-set check fires. -/
def Reroute.getReroutesAux (reroutes : List (Int × Reroute)) :
    Nat → Reroute → List Int → Option (List Reroute)
  | 0, _, _ => none
  | fuel + 1, r, visited =>
    match r.parentId with
    | none => some [r]
    | some pid =>
      if r.id ∈ visited then none
      else
        match mapGet reroutes pid with
        | none => some [r]
        | some parent =>
          (Reroute.getReroutesAux reroutes fuel parent (r.id :: visited)).map
            (fun rs => rs ++ [r])

/-- Modelled from the spec: entry point of `Reroute.getReroutes()` with an
empty visited set. -/
def Reroute.getReroutes (reroutes : List (Int × Reroute)) (r : Reroute) :
    Option (List Reroute) :=
  Reroute.getReroutesAux reroutes (reroutes.length + 1) r []

/-- Modelled from the spec: `Reroute.findNextReroute(id)` — the cycle-safe
upstream search consumed by `LLink.findNextReroute`: walks the `parentId`
chain looking for the reroute that has the requested id as its `parentId`
(the source doc comment: "The matching reroute will have this set as its
parentId"); `notFound` models `undefined`, `loop` models the `null`
cycle sentinel. -/
def Reroute.findNextRerouteAux (reroutes : List (Int × Reroute)) (target : Int) :
    Nat → Reroute → List Int → RerouteSearchResult
  | 0, _, _ => .loop
  | fuel + 1, r, visited =>
    if r.parentId = some target then .found r
    else if r.id ∈ visited then .loop
    else
      match r.parentId with
      | none => .notFound
      | some pid =>
        match mapGet reroutes pid with
        | none => .notFound
        | some parent =>
          Reroute.findNextRerouteAux reroutes target fuel parent (r.id :: visited)

/-- Modelled from the spec: entry point of `Reroute.findNextReroute` with
an empty visited set. -/
def Reroute.findNextReroute (reroutes : List (Int × Reroute)) (r : Reroute)
    (target : Int) : RerouteSearchResult :=
  Reroute.findNextRerouteAux reroutes target (reroutes.length + 1) r []

/-- The `LinkSegment` capability: an id plus an optional parent reroute
id, implemented structurally by both links and reroutes. -/
structure LinkSegment where
  id : Int
  parentId : Option Int
deriving DecidableEq, Repr

/-- A link viewed as a `LinkSegment` (`this` passed to the static
helpers). -/
def LLink.segment (l : LLink) : LinkSegment :=
  { id := l.id, parentId := l.parentId }

/-- `LLink.getReroutes` before the final `?? []`: `some chain` when the
traversal completed (falsy `parentId` and unresolved ids give
`some []`), `none` when the inner traversal signalled a loop. -/
def LLink.getReroutesOpt (net : LinkNetwork) (seg : LinkSegment) :
    Option (List Reroute) :=
  if truthyId seg.parentId = false then some []
  else
    match seg.parentId with
    | none => some []
    | some pid =>
      match mapGet net.reroutes pid with
      | none => some []
      | some r => Reroute.getReroutes net.reroutes r

/-- `LLink.getReroutes(network, linkSegment)`: empty list when
`linkSegment.parentId` is falsy, otherwise the starting reroute's own
chain with `?? []` collapsing the null loop signal to the empty list. -/
def LLink.getReroutes (net : LinkNetwork) (seg : LinkSegment) : List Reroute :=
  (LLink.getReroutesOpt net seg).getD []

/-- `LLink.getFirstReroute`: `.at(0)` of the chain. -/
def LLink.getFirstReroute (net : LinkNetwork) (seg : LinkSegment) : Option Reroute :=
  (LLink.getReroutes net seg).head?

/-- `LLink.findNextReroute(network, linkSegment, rerouteId)`: `undefined`
for a falsy `parentId` or an unresolved starting reroute, otherwise the
starting reroute's own search. -/
def LLink.findNextReroute (net : LinkNetwork) (seg : LinkSegment)
    (target : Int) : RerouteSearchResult :=
  if truthyId seg.parentId = false then .notFound
  else
    match seg.parentId with
    | none => .notFound
    | some pid =>
      match mapGet net.reroutes pid with
      | none => .notFound
      | some r => Reroute.findNextReroute net.reroutes r target

/-- `LLink.getOriginNode(network, linkId)`: the origin node of the link,
absent when the link or the node is missing. -/
def LLink.getOriginNode (net : LinkNetwork) (linkId : Int) : Option LGraphNode :=
  net.getNodeById ((mapGet net.links linkId).map (fun l => l.origin_id))

/-- `LLink.getTargetNode(network, linkId)`: the target node of the link,
absent when the link or the node is missing. -/
def LLink.getTargetNode (net : LinkNetwork) (linkId : Int) : Option LGraphNode :=
  net.getNodeById ((mapGet net.links linkId).map (fun l => l.target_id))

/-- An empty network, used by concrete witnesses. -/
def emptyNet : LinkNetwork :=
  { links := [], reroutes := [], floatingLinks := [], nodes := [] }

/-- C10: a segment whose `parentId` is set but does not resolve to a
reroute in `network.reroutes` behaves exactly like one with no parent:
`getReroutes` yields the empty list and `findNextReroute` yields
`undefined` (not the `null` cycle sentinel). -/
theorem unresolved_parent_is_not_found (net : LinkNetwork) (seg : LinkSegment)
    (p : Int) (hp : seg.parentId = some p)
    (hmiss : mapGet net.reroutes p = none) :
    LLink.getReroutes net seg = [] ∧
    ∀ target : Int, LLink.findNextReroute net seg target = .notFound := by
  by_cases h : p = 0
  · subst h
    constructor
    · simp [LLink.getReroutes, LLink.getReroutesOpt, hp, truthyId]
    · intro target
      simp [LLink.findNextReroute, hp, truthyId]
  · have ht : truthyId seg.parentId = true := by
      simp [hp, truthyId, bne, h]
    constructor
    · simp [LLink.getReroutes, LLink.getReroutesOpt, hp, ht, hmiss]
    · intro target
      simp [LLink.findNextReroute, hp, ht, hmiss]

/-- Witness for C10: an empty network with a segment pointing at the
nonexistent reroute 5. -/
theorem unresolved_parent_is_not_found_witness :
    LLink.getReroutes emptyNet { id := 1, parentId := some 5 } = [] ∧
    LLink.findNextReroute emptyNet { id := 1, parentId := some 5 } 9 = .notFound :=
  ⟨(unresolved_parent_is_not_found emptyNet { id := 1, parentId := some 5 } 5 rfl rfl).1,
   (unresolved_parent_is_not_found emptyNet { id := 1, parentId := some 5 } 5 rfl rfl).2 9⟩

/-! ## Chain traversal: soundness and the three-way result -/

/-- Every reroute is stored in the map under its own id (true of any state
the network builds, where `reroutes.set(reroute.id, reroute)` is the only
insertion). -/
def rerouteMapWF (reroutes : List (Int × Reroute)) : Prop :=
  ∀ p ∈ reroutes, (Prod.snd p).id = Prod.fst p

/-- Invariant carried by the visited set during traversal: every visited
id resolves in the map and was visited while walking through its
`parentId`, so its `parentId` is present. -/
def visitedInv (reroutes : List (Int × Reroute)) (visited : List Int) : Prop :=
  ∀ i ∈ visited, ∃ x, mapGet reroutes i = some x ∧ x.parentId ≠ none

theorem mapGet_canonical (reroutes : List (Int × Reroute))
    (hwf : rerouteMapWF reroutes) (k : Int) (x : Reroute)
    (h : mapGet reroutes k = some x) : mapGet reroutes x.id = some x := by
  have hid : x.id = k := hwf (k, x) (mapGet_mem _ _ _ h)
  rw [hid]
  exact h

theorem findNextAux_found_parentId (reroutes : List (Int × Reroute)) (target : Int) :
    ∀ (fuel : Nat) (r : Reroute) (visited : List Int) (r' : Reroute),
      Reroute.findNextRerouteAux reroutes target fuel r visited = .found r' →
      r'.parentId = some target := by
  intro fuel
  induction fuel with
  | zero =>
      intro r visited r' h
      cases h
  | succ n ih =>
      intro r visited r' h
      simp only [Reroute.findNextRerouteAux] at h
      split at h
      · rename_i hcond
        cases h
        exact hcond
      · split at h
        · cases h
        · split at h
          · cases h
          · rename_i pid hp
            split at h
            · cases h
            · exact ih _ _ _ h

/-- The two traversals agree: whenever `getReroutesAux` completes with a
chain (no loop detected), the search never reports a loop, reports
`notFound` exactly when no chain element has the requested `parentId`, and
any found reroute is a chain element. -/
theorem findNextAux_of_getReroutesAux (reroutes : List (Int × Reroute))
    (hwf : rerouteMapWF reroutes) (target : Int) :
    ∀ (fuel : Nat) (r : Reroute) (visited : List Int) (lst : List Reroute),
      mapGet reroutes r.id = some r →
      visitedInv reroutes visited →
      Reroute.getReroutesAux reroutes fuel r visited = some lst →
      (Reroute.findNextRerouteAux reroutes target fuel r visited ≠ .loop ∧
       (Reroute.findNextRerouteAux reroutes target fuel r visited = .notFound ↔
         ∀ x ∈ lst, x.parentId ≠ some target) ∧
       (∀ r', Reroute.findNextRerouteAux reroutes target fuel r visited = .found r' →
         r' ∈ lst)) := by
  intro fuel
  induction fuel with
  | zero =>
      intro r visited lst _ _ hchain
      cases hchain
  | succ n ih =>
      intro r visited lst hr hv hchain
      simp only [Reroute.getReroutesAux] at hchain
      simp only [Reroute.findNextRerouteAux]
      cases hp : r.parentId with
      | none =>
          rw [hp] at hchain
          have hlst : lst = [r] := by simpa using hchain.symm
          subst hlst
          have h2 : r.id ∉ visited := by
            intro hmem
            obtain ⟨x, hx, hxp⟩ := hv r.id hmem
            rw [hr] at hx
            cases hx
            exact hxp hp
          simp [h2, hp]
      | some pid =>
          rw [hp] at hchain
          by_cases h2 : r.id ∈ visited
          · simp [h2] at hchain
          · simp only [if_neg h2] at hchain
            by_cases h1 : pid = target
            · subst h1
              have hrlst : r ∈ lst := by
                cases hm : mapGet reroutes pid with
                | none =>
                    rw [hm] at hchain
                    have hlst : lst = [r] := by simpa using hchain.symm
                    simp [hlst]
                | some parent =>
                    rw [hm] at hchain
                    simp only [] at hchain
                    cases hrec : Reroute.getReroutesAux reroutes n parent (r.id :: visited) with
                    | none =>
                        rw [hrec] at hchain
                        cases hchain
                    | some rs =>
                        rw [hrec] at hchain
                        have hlst : rs ++ [r] = lst := by simpa using hchain
                        rw [← hlst]
                        simp
              rw [if_pos rfl]
              refine ⟨by simp, ?_, ?_⟩
              · constructor
                · intro hcontra
                  cases hcontra
                · intro hall
                  exact absurd hp (hall r hrlst)
              · intro r' hfound
                cases hfound
                exact hrlst
            · have h1' : ¬(some pid = (some target : Option Int)) := by
                simpa using h1
              rw [if_neg h1', if_neg h2]
              cases hm : mapGet reroutes pid with
              | none =>
                  rw [hm] at hchain
                  have hlst : lst = [r] := by simpa using hchain.symm
                  subst hlst
                  simp [hm, hp, h1]
              | some parent =>
                  rw [hm] at hchain
                  simp only [] at hchain
                  cases hrec : Reroute.getReroutesAux reroutes n parent (r.id :: visited) with
                  | none =>
                      rw [hrec] at hchain
                      cases hchain
                  | some rs =>
                      rw [hrec] at hchain
                      have hlst : rs ++ [r] = lst := by simpa using hchain
                      have hparent : mapGet reroutes parent.id = some parent :=
                        mapGet_canonical reroutes hwf pid parent hm
                      have hv' : visitedInv reroutes (r.id :: visited) := by
                        intro i hi
                        rcases List.mem_cons.mp hi with hi | hi
                        · subst hi
                          exact ⟨r, hr, by rw [hp]; simp⟩
                        · exact hv i hi
                      obtain ⟨ihl, ihnf, ihf⟩ := ih parent (r.id :: visited) rs hparent hv' hrec
                      subst hlst
                      simp only [hm]
                      refine ⟨ihl, ?_, ?_⟩
                      · rw [ihnf]
                        constructor
                        · intro hall x hx
                          rcases List.mem_append.mp hx with hx | hx
                          · exact hall x hx
                          · have hxr : x = r := by simpa using hx
                            subst hxr
                            rw [hp]
                            intro hcontra
                            simp only [Option.some.injEq] at hcontra
                            exact h1 hcontra
                        · intro hall x hx
                          exact hall x (List.mem_append.mpr (Or.inl hx))
                      · intro r' hfound
                        exact List.mem_append.mpr (Or.inl (ihf r' hfound))

/-! ## Concrete fixtures (the spec's test scenarios) -/

/-- First reroute of the two-reroute chain: attached directly to the
origin. -/
def rerouteA : Reroute :=
  { id := 1, parentId := none, linkIds := [4], floatingLinkIds := [], floating := none }

/-- Second reroute of the chain, downstream of `rerouteA`. -/
def rerouteB : Reroute :=
  { id := 2, parentId := some 1, linkIds := [4], floatingLinkIds := [], floating := none }

/-- The link routed through `rerouteA` then `rerouteB`. -/
def linkL1 : LLink :=
  { id := 4, type := .num 0, origin_id := 10, origin_slot := 0,
    target_id := 20, target_slot := 1, parentId := some 2 }

/-- Network `R1 ← R2 ← L1` from the spec's concrete scenario. -/
def chainNet : LinkNetwork :=
  { links := [(4, linkL1)]
    reroutes := [(1, rerouteA), (2, rerouteB)]
    floatingLinks := []
    nodes := [] }

/-- A deliberately corrupt network whose two reroutes point at each
other. -/
def cyclicNet : LinkNetwork :=
  { links := []
    reroutes :=
      [(1, { id := 1, parentId := some 2, linkIds := [9], floatingLinkIds := [], floating := none }),
       (2, { id := 2, parentId := some 1, linkIds := [9], floatingLinkIds := [], floating := none })]
    floatingLinks := []
    nodes := [] }

/-- A segment anchored in the cyclic chain. -/
def cyclicSeg : LinkSegment := { id := 9, parentId := some 1 }

/-- C6: `findNextReroute` has exactly the three outcomes of its result
type, never conflating them: a `found` result always carries a reroute
whose `parentId` is the requested id; whenever the chain traversal from
the same segment completes without detecting a cycle (`getReroutesOpt`
returns a chain), the search cannot report `loop`, reports the
`undefined`-style `notFound` exactly when no chain reroute's `parentId`
matches, and any found reroute lies on the chain; and on a deliberately
cyclic fixture the search reports the `null`-style `loop`. -/
theorem findNextReroute_trichotomy (net : LinkNetwork) (seg : LinkSegment)
    (target : Int) (hwf : NetWF net) :
    (∀ r, LLink.findNextReroute net seg target = .found r →
      r.parentId = some target) ∧
    (∀ lst, LLink.getReroutesOpt net seg = some lst →
      LLink.findNextReroute net seg target ≠ .loop ∧
      (LLink.findNextReroute net seg target = .notFound ↔
        ∀ x ∈ lst, x.parentId ≠ some target) ∧
      (∀ r, LLink.findNextReroute net seg target = .found r → r ∈ lst)) ∧
    LLink.findNextReroute cyclicNet cyclicSeg 99 = .loop := by
  refine ⟨?_, ?_, by decide⟩
  · intro r hfound
    simp only [LLink.findNextReroute] at hfound
    split at hfound
    · cases hfound
    · split at hfound
      · cases hfound
      · split at hfound
        · cases hfound
        · exact findNextAux_found_parentId net.reroutes target _ _ _ r hfound
  · intro lst hopt
    simp only [LLink.findNextReroute]
    simp only [LLink.getReroutesOpt] at hopt
    by_cases ht : truthyId seg.parentId = false
    · rw [if_pos ht] at hopt
      rw [if_pos ht]
      have hlst : lst = [] := by simpa using hopt.symm
      subst hlst
      simp
    · rw [if_neg ht] at hopt
      rw [if_neg ht]
      cases hsp : seg.parentId with
      | none =>
          exfalso
          apply ht
          rw [hsp]
          rfl
      | some pid =>
          rw [hsp] at hopt
          simp only [] at hopt ⊢
          cases hm : mapGet net.reroutes pid with
          | none =>
              rw [hm] at hopt
              have hlst : lst = [] := by simpa using hopt.symm
              subst hlst
              simp
          | some r0 =>
              rw [hm] at hopt
              simp only [] at hopt ⊢
              simp only [Reroute.getReroutes] at hopt
              simp only [Reroute.findNextReroute]
              have hr0 : mapGet net.reroutes r0.id = some r0 :=
                mapGet_canonical net.reroutes hwf.2.1 pid r0 hm
              have hvi : visitedInv net.reroutes [] := by
                intro i hi
                cases hi
              exact findNextAux_of_getReroutesAux net.reroutes hwf.2.1 target _ r0 [] lst
                hr0 hvi hopt

/-- Witness for C6 on the acyclic two-reroute fixture. -/
theorem findNextReroute_trichotomy_witness :
    LLink.findNextReroute chainNet linkL1.segment 99 ≠ .loop :=
  ((findNextReroute_trichotomy chainNet linkL1.segment 99 (by decide)).2.1
    [rerouteA, rerouteB] (by decide)).1

/-! ## Chain invariants used by `disconnect` -/

/-- A completed chain traversal yields reroutes that are each stored in
the map under their own id, with pairwise distinct ids, and none of them
previously visited (unless at the chain head). -/
theorem getReroutesAux_inv (reroutes : List (Int × Reroute))
    (hwf : rerouteMapWF reroutes) :
    ∀ (fuel : Nat) (r : Reroute) (visited : List Int) (lst : List Reroute),
      mapGet reroutes r.id = some r →
      Reroute.getReroutesAux reroutes fuel r visited = some lst →
      ((∀ x ∈ lst, mapGet reroutes x.id = some x) ∧
       (lst.map (fun x => x.id)).Nodup ∧
       (∀ x ∈ lst, x.parentId = none ∨ x.id ∉ visited)) := by
  intro fuel
  induction fuel with
  | zero =>
      intro r visited lst _ h
      cases h
  | succ n ih =>
      intro r visited lst hr hchain
      simp only [Reroute.getReroutesAux] at hchain
      cases hp : r.parentId with
      | none =>
          rw [hp] at hchain
          have hlst : lst = [r] := by simpa using hchain.symm
          subst hlst
          refine ⟨?_, by simp, ?_⟩
          · intro x hx
            have hxr : x = r := by simpa using hx
            subst hxr
            exact hr
          · intro x hx
            have hxr : x = r := by simpa using hx
            subst hxr
            exact Or.inl hp
      | some pid =>
          rw [hp] at hchain
          by_cases h2 : r.id ∈ visited
          · simp [h2] at hchain
          · simp only [if_neg h2] at hchain
            cases hm : mapGet reroutes pid with
            | none =>
                rw [hm] at hchain
                have hlst : lst = [r] := by simpa using hchain.symm
                subst hlst
                refine ⟨?_, by simp, ?_⟩
                · intro x hx
                  have hxr : x = r := by simpa using hx
                  subst hxr
                  exact hr
                · intro x hx
                  have hxr : x = r := by simpa using hx
                  subst hxr
                  exact Or.inr h2
            | some parent =>
                rw [hm] at hchain
                simp only [] at hchain
                cases hrec : Reroute.getReroutesAux reroutes n parent (r.id :: visited) with
                | none =>
                    rw [hrec] at hchain
                    cases hchain
                | some rs =>
                    rw [hrec] at hchain
                    have hlst : rs ++ [r] = lst := by simpa using hchain
                    have hparent : mapGet reroutes parent.id = some parent :=
                      mapGet_canonical reroutes hwf pid parent hm
                    obtain ⟨ihc, ihnd, ihv⟩ := ih parent (r.id :: visited) rs hparent hrec
                    subst hlst
                    refine ⟨?_, ?_, ?_⟩
                    · intro x hx
                      rcases List.mem_append.mp hx with hx | hx
                      · exact ihc x hx
                      · have hxr : x = r := by simpa using hx
                        subst hxr
                        exact hr
                    · rw [List.map_append]
                      refine List.Nodup.append ihnd (by simp) ?_
                      intro a ha hb
                      have har : a = r.id := by simpa using hb
                      subst har
                      obtain ⟨x, hxrs, hxid⟩ := List.mem_map.mp ha
                      have hxc := ihc x hxrs
                      rw [hxid, hr] at hxc
                      have hxr : x = r := by simpa using hxc.symm
                      rcases ihv x hxrs with hnone | hnotin
                      · rw [hxr, hp] at hnone
                        cases hnone
                      · apply hnotin
                        rw [hxid]
                        exact List.mem_cons_self _ _
                    · intro x hx
                      rcases List.mem_append.mp hx with hx | hx
                      · rcases ihv x hx with hnone | hnotin
                        · exact Or.inl hnone
                        · exact Or.inr fun hmem => hnotin (List.mem_cons_of_mem _ hmem)
                      · have hxr : x = r := by simpa using hx
                        subst hxr
                        exact Or.inr h2

/-- Every reroute on a link segment's chain is the map's entry for its own
id, and the chain carries pairwise distinct reroute ids. -/
theorem getReroutes_canonical (net : LinkNetwork) (seg : LinkSegment)
    (hwf : rerouteMapWF net.reroutes) :
    (∀ x ∈ LLink.getReroutes net seg, mapGet net.reroutes x.id = some x) ∧
    ((LLink.getReroutes net seg).map (fun x => x.id)).Nodup := by
  unfold LLink.getReroutes LLink.getReroutesOpt
  by_cases ht : truthyId seg.parentId = false
  · rw [if_pos ht]
    simp
  · rw [if_neg ht]
    cases hsp : seg.parentId with
    | none => simp
    | some pid =>
        simp only []
        cases hm : mapGet net.reroutes pid with
        | none => simp
        | some r0 =>
            simp only [Reroute.getReroutes]
            cases hopt : Reroute.getReroutesAux net.reroutes (net.reroutes.length + 1) r0 [] with
            | none => simp
            | some lst =>
                simp only [Option.getD_some]
                have hr0 : mapGet net.reroutes r0.id = some r0 :=
                  mapGet_canonical net.reroutes hwf pid r0 hm
                obtain ⟨hc, hnd, _⟩ :=
                  getReroutesAux_inv net.reroutes hwf _ r0 [] lst hr0 hopt
                exact ⟨hc, hnd⟩

/-! ## `disconnect` -/

/-- One iteration of the cleanup loop in `disconnect`: as the source's
`for (const reroute of reroutes)` body, it deletes this link's id from the
reroute's `linkIds` set (an in-place mutation of the `Map`-held object),
then — only when no `keepReroutes` was requested and the reroute's
`totalLinks` just reached zero — deletes the reroute from
`network.reroutes`. -/
def disconnectLoopStep (keepReroutes : Option SlotSide) (linkId : Int)
    (net : LinkNetwork) (rid : Int) : LinkNetwork :=
  match mapGet net.reroutes rid with
  | none => net
  | some r =>
    if keepReroutes = none ∧
        Reroute.totalLinks { r with linkIds := r.linkIds.erase linkId } = 0 then
      { net with
        reroutes := mapDelete
          (mapModify net.reroutes rid
            (fun x => { x with linkIds := x.linkIds.erase linkId })) rid }
    else
      { net with
        reroutes := mapModify net.reroutes rid
          (fun x => { x with linkIds := x.linkIds.erase linkId }) }

/-- `disconnect(network, keepReroutes?)`: compute the chain, optionally
synthesize a floating replacement link (erasing one endpoint of a copy of
this link, marking the last chain reroute's `floating` side, and
registering the copy via `addFloatingLink`), run the cleanup loop over the
chain, then remove this link from `network.links`. -/
def LLink.disconnect (net : LinkNetwork) (l : LLink)
    (keepReroutes : Option SlotSide) : LinkNetwork :=
  let reroutes := LLink.getReroutes net l.segment
  let lastReroute := reroutes.getLast?
  let outputFloating : Bool :=
    decide (keepReroutes = some SlotSide.output) &&
      (match lastReroute with
       | some last =>
           decide (last.linkIds.length = 1) && decide (last.floatingLinkIds.length = 0)
       | none => false)
  let net1 : LinkNetwork :=
    if outputFloating ||
        (decide (keepReroutes = some SlotSide.input) && lastReroute.isSome) then
      match lastReroute with
      | some last =>
          let newLink : LLink :=
            if keepReroutes = some SlotSide.input then
              { l with id := -1, origin_id := -1, origin_slot := -1 }
            else
              { l with id := -1, target_id := -1, target_slot := -1 }
          let side : SlotSide :=
            if keepReroutes = some SlotSide.input then .input else .output
          LinkNetwork.addFloatingLink
            { net with
              reroutes := mapModify net.reroutes last.id
                (fun r => { r with floating := some side }) }
            newLink
      | none => net
    else net
  let net2 := reroutes.foldl
    (fun acc r => disconnectLoopStep keepReroutes l.id acc r.id) net1
  { net2 with links := mapDelete net2.links l.id }

theorem disconnectLoopStep_other_fields (keep : Option SlotSide) (linkId : Int)
    (net : LinkNetwork) (rid : Int) :
    (disconnectLoopStep keep linkId net rid).links = net.links ∧
    (disconnectLoopStep keep linkId net rid).floatingLinks = net.floatingLinks := by
  unfold disconnectLoopStep
  cases mapGet net.reroutes rid
  · exact ⟨rfl, rfl⟩
  · dsimp only
    split
    · exact ⟨rfl, rfl⟩
    · exact ⟨rfl, rfl⟩

theorem disconnectLoopStep_frame (keep : Option SlotSide) (linkId : Int)
    (net : LinkNetwork) (rid k : Int) (h : k ≠ rid) :
    mapGet (disconnectLoopStep keep linkId net rid).reroutes k =
      mapGet net.reroutes k := by
  unfold disconnectLoopStep
  cases mapGet net.reroutes rid
  · rfl
  · dsimp only
    split
    · show mapGet (mapDelete (mapModify net.reroutes rid _) rid) k = _
      rw [mapGet_delete_ne _ _ _ (Ne.symm h), mapGet_modify_ne _ _ _ _ (Ne.symm h)]
    · exact mapGet_modify_ne _ _ _ _ (Ne.symm h)

theorem disconnectLoopStep_keys_nodup (keep : Option SlotSide) (linkId : Int)
    (net : LinkNetwork) (rid : Int)
    (hnd : (mapKeys net.reroutes).Nodup) :
    (mapKeys (disconnectLoopStep keep linkId net rid).reroutes).Nodup := by
  unfold disconnectLoopStep
  cases mapGet net.reroutes rid
  · exact hnd
  · dsimp only
    split
    · show (mapKeys (mapDelete (mapModify net.reroutes rid _) rid)).Nodup
      exact mapKeys_delete_nodup _ _ (by rw [mapKeys_modify]; exact hnd)
    · show (mapKeys (mapModify net.reroutes rid _)).Nodup
      rw [mapKeys_modify]
      exact hnd

theorem disconnectLoopStep_keys_of_keep (keep : Option SlotSide) (linkId : Int)
    (net : LinkNetwork) (rid : Int) (hkeep : keep ≠ none) :
    mapKeys (disconnectLoopStep keep linkId net rid).reroutes =
      mapKeys net.reroutes := by
  unfold disconnectLoopStep
  cases mapGet net.reroutes rid
  · rfl
  · dsimp only
    rw [if_neg (fun hc => hkeep hc.1)]
    exact mapKeys_modify _ _ _

theorem disconnectLoopStep_self_delete (keep : Option SlotSide) (linkId : Int)
    (net : LinkNetwork) (rid : Int) (r : Reroute)
    (hm : mapGet net.reroutes rid = some r)
    (hnd : (mapKeys net.reroutes).Nodup)
    (hc : keep = none ∧
      Reroute.totalLinks { r with linkIds := r.linkIds.erase linkId } = 0) :
    mapGet (disconnectLoopStep keep linkId net rid).reroutes rid = none := by
  unfold disconnectLoopStep
  rw [hm]
  dsimp only
  rw [if_pos hc]
  exact mapGet_delete_self _ _ (by rw [mapKeys_modify]; exact hnd)

theorem disconnectLoopStep_self_keep (keep : Option SlotSide) (linkId : Int)
    (net : LinkNetwork) (rid : Int) (r : Reroute)
    (hm : mapGet net.reroutes rid = some r)
    (hc : ¬(keep = none ∧
      Reroute.totalLinks { r with linkIds := r.linkIds.erase linkId } = 0)) :
    mapGet (disconnectLoopStep keep linkId net rid).reroutes rid =
      some { r with linkIds := r.linkIds.erase linkId } := by
  unfold disconnectLoopStep
  rw [hm]
  dsimp only
  rw [if_neg hc]
  show mapGet (mapModify net.reroutes rid _) rid = _
  rw [mapGet_modify_self, hm]
  rfl

theorem disconnectFold_other_fields (keep : Option SlotSide) (linkId : Int) :
    ∀ (chain : List Reroute) (net : LinkNetwork),
      (chain.foldl (fun acc r => disconnectLoopStep keep linkId acc r.id) net).links =
        net.links ∧
      (chain.foldl (fun acc r => disconnectLoopStep keep linkId acc r.id) net).floatingLinks =
        net.floatingLinks := by
  intro chain
  induction chain with
  | nil => intro net; exact ⟨rfl, rfl⟩
  | cons hd tl ih =>
      intro net
      simp only [List.foldl_cons]
      obtain ⟨h1, h2⟩ := ih (disconnectLoopStep keep linkId net hd.id)
      obtain ⟨g1, g2⟩ := disconnectLoopStep_other_fields keep linkId net hd.id
      exact ⟨h1.trans g1, h2.trans g2⟩

theorem disconnectFold_frame (keep : Option SlotSide) (linkId : Int) :
    ∀ (chain : List Reroute) (net : LinkNetwork) (k : Int),
      k ∉ chain.map (fun x => x.id) →
      mapGet (chain.foldl (fun acc r => disconnectLoopStep keep linkId acc r.id) net).reroutes k =
        mapGet net.reroutes k := by
  intro chain
  induction chain with
  | nil =>
      intro net k _
      rfl
  | cons hd tl ih =>
      intro net k hk
      simp only [List.map_cons, List.mem_cons] at hk
      push_neg at hk
      simp only [List.foldl_cons]
      rw [ih _ k (by simpa using hk.2)]
      exact disconnectLoopStep_frame keep linkId net hd.id k hk.1

theorem disconnectFold_keys_nodup (keep : Option SlotSide) (linkId : Int) :
    ∀ (chain : List Reroute) (net : LinkNetwork),
      (mapKeys net.reroutes).Nodup →
      (mapKeys (chain.foldl
        (fun acc r => disconnectLoopStep keep linkId acc r.id) net).reroutes).Nodup := by
  intro chain
  induction chain with
  | nil =>
      intro net h
      exact h
  | cons hd tl ih =>
      intro net h
      simp only [List.foldl_cons]
      exact ih _ (disconnectLoopStep_keys_nodup keep linkId net hd.id h)

theorem disconnectFold_keys_of_keep (keep : Option SlotSide) (linkId : Int)
    (hkeep : keep ≠ none) :
    ∀ (chain : List Reroute) (net : LinkNetwork),
      mapKeys (chain.foldl
        (fun acc r => disconnectLoopStep keep linkId acc r.id) net).reroutes =
        mapKeys net.reroutes := by
  intro chain
  induction chain with
  | nil =>
      intro net
      rfl
  | cons hd tl ih =>
      intro net
      simp only [List.foldl_cons]
      rw [ih _, disconnectLoopStep_keys_of_keep keep linkId net hd.id hkeep]

/-- Effect of the cleanup loop on one chain element: given pairwise
distinct chain ids, the element's entry ends deleted exactly when no keep
mode was requested and its post-erase `totalLinks` is zero, and otherwise
ends with this link's id erased from its `linkIds`. -/
theorem disconnectFold_effect (keep : Option SlotSide) (linkId : Int) :
    ∀ (chain : List Reroute) (net : LinkNetwork) (x : Reroute) (v : Reroute),
      (chain.map (fun y => y.id)).Nodup →
      x ∈ chain →
      mapGet net.reroutes x.id = some v →
      (mapKeys net.reroutes).Nodup →
      ((keep = none ∧
          Reroute.totalLinks { v with linkIds := v.linkIds.erase linkId } = 0 →
          mapGet (chain.foldl
            (fun acc r => disconnectLoopStep keep linkId acc r.id) net).reroutes x.id =
            none) ∧
       (¬(keep = none ∧
          Reroute.totalLinks { v with linkIds := v.linkIds.erase linkId } = 0) →
          mapGet (chain.foldl
            (fun acc r => disconnectLoopStep keep linkId acc r.id) net).reroutes x.id =
            some { v with linkIds := v.linkIds.erase linkId })) := by
  intro chain
  induction chain with
  | nil =>
      intro net x v _ hx
      cases hx
  | cons hd tl ih =>
      intro net x v hnd hx hv hknd
      simp only [List.map_cons, List.nodup_cons] at hnd
      rcases List.mem_cons.mp hx with hxhd | hxtl
      · subst hxhd
        constructor
        · intro hc
          simp only [List.foldl_cons]
          rw [disconnectFold_frame keep linkId tl _ x.id (by simpa using hnd.1)]
          exact disconnectLoopStep_self_delete keep linkId net x.id v hv hknd hc
        · intro hc
          simp only [List.foldl_cons]
          rw [disconnectFold_frame keep linkId tl _ x.id (by simpa using hnd.1)]
          exact disconnectLoopStep_self_keep keep linkId net x.id v hv hc
      · have hne : x.id ≠ hd.id := by
          intro he
          apply hnd.1
          rw [← he]
          exact List.mem_map.mpr ⟨x, hxtl, rfl⟩
        have hv' : mapGet (disconnectLoopStep keep linkId net hd.id).reroutes x.id = some v := by
          rw [disconnectLoopStep_frame keep linkId net hd.id x.id hne]
          exact hv
        have hknd' := disconnectLoopStep_keys_nodup keep linkId net hd.id hknd
        simp only [List.foldl_cons]
        exact ih _ x v hnd.2 hxtl hv' hknd'

/-- C1: disconnecting with no `keepReroutes` removes this link's id from
the `linkIds` of every reroute on its chain, deletes exactly the chain
reroutes whose `totalLinks` thereby becomes zero, leaves the chain
reroutes still serving other links or floating links present in
`network.reroutes`, and removes the link from `network.links`. -/
theorem disconnect_no_keep (net : LinkNetwork) (l : LLink) (hwf : NetWF net) :
    (∀ r ∈ LLink.getReroutes net l.segment,
      ((r.linkIds.erase l.id).length + r.floatingLinkIds.length = 0 →
        mapGet (LLink.disconnect net l none).reroutes r.id = none) ∧
      ((r.linkIds.erase l.id).length + r.floatingLinkIds.length ≠ 0 →
        mapGet (LLink.disconnect net l none).reroutes r.id =
          some { r with linkIds := r.linkIds.erase l.id }) ∧
      l.id ∉ r.linkIds.erase l.id) ∧
    mapGet (LLink.disconnect net l none).links l.id = none := by
  have hun : LLink.disconnect net l none =
      { (LLink.getReroutes net l.segment).foldl
          (fun acc r => disconnectLoopStep none l.id acc r.id) net with
        links := mapDelete ((LLink.getReroutes net l.segment).foldl
          (fun acc r => disconnectLoopStep none l.id acc r.id) net).links l.id } := rfl
  refine ⟨?_, ?_⟩
  · intro r hr
    obtain ⟨hcanon, hnd⟩ := getReroutes_canonical net l.segment hwf.2.1
    have hv := hcanon r hr
    have heff := disconnectFold_effect none l.id (LLink.getReroutes net l.segment)
      net r r hnd hr hv hwf.1
    have hlnd : r.linkIds.Nodup :=
      hwf.2.2.2 (r.id, r) (mapGet_mem _ _ _ hv)
    refine ⟨?_, ?_, hlnd.not_mem_erase⟩
    · intro hzero
      rw [hun]
      exact heff.1 ⟨rfl, hzero⟩
    · intro hnz
      rw [hun]
      exact heff.2 (fun hc => hnz hc.2)
  · rw [hun]
    show mapGet (mapDelete ((LLink.getReroutes net l.segment).foldl
      (fun acc r => disconnectLoopStep none l.id acc r.id) net).links l.id) l.id = none
    rw [(disconnectFold_other_fields none l.id (LLink.getReroutes net l.segment) net).1]
    exact mapGet_delete_self _ _ hwf.2.2.1

/-- Witness for C1 on the spec's concrete scenario `R1 ← R2 ← L1`:
disconnecting `L1` with no keep flag removes both now-empty reroutes and
the link itself. -/
theorem disconnect_no_keep_witness :
    mapGet (LLink.disconnect chainNet linkL1 none).reroutes rerouteB.id = none ∧
    mapGet (LLink.disconnect chainNet linkL1 none).reroutes rerouteA.id = none ∧
    mapGet (LLink.disconnect chainNet linkL1 none).links linkL1.id = none :=
  ⟨((disconnect_no_keep chainNet linkL1 (by decide)).1 rerouteB (by decide)).1 (by decide),
   ((disconnect_no_keep chainNet linkL1 (by decide)).1 rerouteA (by decide)).1 (by decide),
   (disconnect_no_keep chainNet linkL1 (by decide)).2⟩


theorem getLast?_mem_self {α : Type} (l : List α) (x : α)
    (h : l.getLast? = some x) : x ∈ l := by
  obtain ⟨hne, hxl⟩ := List.mem_getLast?_eq_getLast (Option.mem_def.mpr h)
  rw [hxl]
  exact List.getLast_mem hne

/-- The state of the network after the floating-replacement branch of
`disconnect` in a keep mode: the last chain reroute's `floating` marker is
written and the one-endpoint-erased copy of the link is registered.  This
is exactly the branch body of `LLink.disconnect`; it is factored out so
the theorems below can name it. -/
def keepModeNet (net : LinkNetwork) (l : LLink) (last : Reroute)
    (side : SlotSide) : LinkNetwork :=
  LinkNetwork.addFloatingLink
    { net with
      reroutes :=
        mapModify net.reroutes last.id (fun r => { r with floating := some side }) }
    (if side = SlotSide.input then
      { l with id := -1, origin_id := -1, origin_slot := -1 }
    else
      { l with id := -1, target_id := -1, target_slot := -1 })

/-- The tail of `disconnect` after the optional floating-replacement
branch: the cleanup loop over the chain followed by the removal of the
link from `network.links`. -/
def disconnectTail (keep : Option SlotSide) (linkId : Int)
    (chain : List Reroute) (net1 : LinkNetwork) : LinkNetwork :=
  let net2 := chain.foldl (fun acc r => disconnectLoopStep keep linkId acc r.id) net1
  { net2 with links := mapDelete net2.links linkId }

theorem disconnect_output_eq (net : LinkNetwork) (l : LLink) (last : Reroute)
    (hlast : (LLink.getReroutes net l.segment).getLast? = some last)
    (hc1 : last.linkIds.length = 1) (hc2 : last.floatingLinkIds.length = 0) :
    LLink.disconnect net l (some SlotSide.output) =
      disconnectTail (some SlotSide.output) l.id (LLink.getReroutes net l.segment)
        (keepModeNet net l last SlotSide.output) := by
  simp only [LLink.disconnect, hlast]
  simp [hc1, hc2, keepModeNet, disconnectTail]

theorem disconnect_output_skip_eq (net : LinkNetwork) (l : LLink) (last : Reroute)
    (hlast : (LLink.getReroutes net l.segment).getLast? = some last)
    (hc : ¬(last.linkIds.length = 1 ∧ last.floatingLinkIds.length = 0)) :
    LLink.disconnect net l (some SlotSide.output) =
      disconnectTail (some SlotSide.output) l.id (LLink.getReroutes net l.segment) net := by
  have hc' : ¬(last.linkIds.length = 1 ∧ last.floatingLinkIds = []) := by
    intro hboth
    exact hc ⟨hboth.1, by simp [hboth.2]⟩
  simp only [LLink.disconnect, hlast]
  simp [disconnectTail, hc']

theorem disconnect_input_eq (net : LinkNetwork) (l : LLink) (last : Reroute)
    (hlast : (LLink.getReroutes net l.segment).getLast? = some last) :
    LLink.disconnect net l (some SlotSide.input) =
      disconnectTail (some SlotSide.input) l.id (LLink.getReroutes net l.segment)
        (keepModeNet net l last SlotSide.input) := by
  simp only [LLink.disconnect, hlast]
  simp [keepModeNet, disconnectTail]

theorem disconnect_keepMode_props (net : LinkNetwork) (l : LLink) (last : Reroute)
    (hwf : NetWF net)
    (hlast : (LLink.getReroutes net l.segment).getLast? = some last)
    (side : SlotSide) (keep : Option SlotSide) (hkeep : keep ≠ none) :
    mapGet (disconnectTail keep l.id (LLink.getReroutes net l.segment)
        (keepModeNet net l last side)).reroutes last.id =
      some { last with linkIds := last.linkIds.erase l.id, floating := some side } ∧
    (disconnectTail keep l.id (LLink.getReroutes net l.segment)
        (keepModeNet net l last side)).floatingLinks =
      net.floatingLinks ++
        [((-1 : Int),
          if side = SlotSide.input then
            { l with id := -1, origin_id := -1, origin_slot := -1 }
          else
            { l with id := -1, target_id := -1, target_slot := -1 })] ∧
    mapKeys (disconnectTail keep l.id (LLink.getReroutes net l.segment)
        (keepModeNet net l last side)).reroutes = mapKeys net.reroutes := by
  obtain ⟨hcanon, hnd⟩ := getReroutes_canonical net l.segment hwf.2.1
  have hlmem : last ∈ LLink.getReroutes net l.segment := getLast?_mem_self _ _ hlast
  have hlv : mapGet net.reroutes last.id = some last := hcanon last hlmem
  have hget1 : mapGet (keepModeNet net l last side).reroutes last.id =
      some { last with floating := some side } := by
    show mapGet (mapModify net.reroutes last.id
      (fun r => { r with floating := some side })) last.id = _
    rw [mapGet_modify_self, hlv]
    rfl
  have hkeys1 : mapKeys (keepModeNet net l last side).reroutes = mapKeys net.reroutes := by
    show mapKeys (mapModify net.reroutes last.id
      (fun r => { r with floating := some side })) = _
    exact mapKeys_modify _ _ _
  have hknd1 : (mapKeys (keepModeNet net l last side).reroutes).Nodup := by
    rw [hkeys1]
    exact hwf.1
  refine ⟨?_, ?_, ?_⟩
  · have heff := disconnectFold_effect keep l.id (LLink.getReroutes net l.segment)
      (keepModeNet net l last side) last { last with floating := some side }
      hnd hlmem hget1 hknd1
    have hentry := heff.2 (fun hcon => hkeep hcon.1)
    exact hentry
  · show ((LLink.getReroutes net l.segment).foldl
      (fun acc r => disconnectLoopStep keep l.id acc r.id)
      (keepModeNet net l last side)).floatingLinks = _
    rw [(disconnectFold_other_fields keep l.id (LLink.getReroutes net l.segment)
      (keepModeNet net l last side)).2]
    cases side <;> rfl
  · show mapKeys ((LLink.getReroutes net l.segment).foldl
      (fun acc r => disconnectLoopStep keep l.id acc r.id)
      (keepModeNet net l last side)).reroutes = _
    rw [disconnectFold_keys_of_keep keep l.id hkeep (LLink.getReroutes net l.segment)
      (keepModeNet net l last side)]
    exact hkeys1

/-- C2: in keep modes, disconnecting a link with a non-empty reroute chain
synthesizes and registers the floating replacement exactly as specified:
with `keepReroutes = "output"` it happens if and only if the last chain
reroute has exactly one link id and no floating link ids, the replacement
keeps the origin and erases the target, and the last reroute is marked
`floating = output`; with `keepReroutes = "input"` it always happens, the
replacement keeps the target and erases the origin, and the last reroute
is marked `floating = input`; in both keep modes no reroute is deleted
from `network.reroutes`. -/
theorem disconnect_keep_reroutes (net : LinkNetwork) (l : LLink) (last : Reroute)
    (hwf : NetWF net)
    (hlast : (LLink.getReroutes net l.segment).getLast? = some last) :
    ((last.linkIds.length = 1 ∧ last.floatingLinkIds.length = 0 →
      mapGet (LLink.disconnect net l (some SlotSide.output)).reroutes last.id =
        some { last with linkIds := last.linkIds.erase l.id, floating := some SlotSide.output } ∧
      ((-1 : Int), { l with id := -1, target_id := -1, target_slot := -1 }) ∈
        (LLink.disconnect net l (some SlotSide.output)).floatingLinks) ∧
     (¬(last.linkIds.length = 1 ∧ last.floatingLinkIds.length = 0) →
      (LLink.disconnect net l (some SlotSide.output)).floatingLinks =
        net.floatingLinks)) ∧
    (mapGet (LLink.disconnect net l (some SlotSide.input)).reroutes last.id =
       some { last with linkIds := last.linkIds.erase l.id, floating := some SlotSide.input } ∧
     ((-1 : Int), { l with id := -1, origin_id := -1, origin_slot := -1 }) ∈
       (LLink.disconnect net l (some SlotSide.input)).floatingLinks) ∧
    mapKeys (LLink.disconnect net l (some SlotSide.output)).reroutes =
      mapKeys net.reroutes ∧
    mapKeys (LLink.disconnect net l (some SlotSide.input)).reroutes =
      mapKeys net.reroutes := by
  refine ⟨⟨?_, ?_⟩, ?_, ?_, ?_⟩
  · intro hcond
    rw [disconnect_output_eq net l last hlast hcond.1 hcond.2]
    obtain ⟨hentry, hfl, _⟩ := disconnect_keepMode_props net l last hwf hlast
      SlotSide.output (some SlotSide.output) (by simp)
    refine ⟨hentry, ?_⟩
    rw [hfl]
    simp
  · intro hcond
    rw [disconnect_output_skip_eq net l last hlast hcond]
    show ((LLink.getReroutes net l.segment).foldl
      (fun acc r => disconnectLoopStep (some SlotSide.output) l.id acc r.id)
      net).floatingLinks = _
    exact (disconnectFold_other_fields (some SlotSide.output) l.id
      (LLink.getReroutes net l.segment) net).2
  · rw [disconnect_input_eq net l last hlast]
    obtain ⟨hentry, hfl, _⟩ := disconnect_keepMode_props net l last hwf hlast
      SlotSide.input (some SlotSide.input) (by simp)
    refine ⟨hentry, ?_⟩
    rw [hfl]
    simp
  · by_cases hcond : last.linkIds.length = 1 ∧ last.floatingLinkIds.length = 0
    · rw [disconnect_output_eq net l last hlast hcond.1 hcond.2]
      exact (disconnect_keepMode_props net l last hwf hlast
        SlotSide.output (some SlotSide.output) (by simp)).2.2
    · rw [disconnect_output_skip_eq net l last hlast hcond]
      show mapKeys ((LLink.getReroutes net l.segment).foldl
        (fun acc r => disconnectLoopStep (some SlotSide.output) l.id acc r.id)
        net).reroutes = _
      exact disconnectFold_keys_of_keep (some SlotSide.output) l.id (by simp)
        (LLink.getReroutes net l.segment) net
  · rw [disconnect_input_eq net l last hlast]
    exact (disconnect_keepMode_props net l last hwf hlast
      SlotSide.input (some SlotSide.input) (by simp)).2.2

/-- Witness for C2 on the `R1 ← R2 ← L1` fixture, whose last chain reroute
`R2` carries exactly the one link and no floating links. -/
theorem disconnect_keep_reroutes_witness :
    ((-1 : Int), { linkL1 with id := -1, target_id := -1, target_slot := -1 }) ∈
      (LLink.disconnect chainNet linkL1 (some SlotSide.output)).floatingLinks ∧
    mapKeys (LLink.disconnect chainNet linkL1 (some SlotSide.input)).reroutes =
      mapKeys chainNet.reroutes :=
  ⟨((disconnect_keep_reroutes chainNet linkL1 rerouteB (by decide) (by decide)).1.1
      (by decide)).2,
   (disconnect_keep_reroutes chainNet linkL1 rerouteB (by decide) (by decide)).2.2.2⟩

/-! ## Render-link error behaviour (C8) and query purity (C9) -/

/-- JavaScript `Array.prototype.indexOf` over a node's output slots: the
first index of the slot, or `-1` when absent. -/
def slotIndexOf : List INodeOutputSlot → INodeOutputSlot → Int
  | [], _ => -1
  | x :: xs, s =>
      if x = s then 0
      else if slotIndexOf xs s = -1 then -1 else slotIndexOf xs s + 1

/-- `ToInputRenderLink`: a drag-from-output render link.  The render-only
fields of the source (`fromPos`, drag directions, the network and reroute
references used only for positioning) are omitted; the fields kept are the
ones the constructor's validation concerns. -/
structure ToInputRenderLink where
  node : LGraphNode
  fromSlot : INodeOutputSlot
  fromSlotIndex : Int
deriving DecidableEq, Repr

/-- The `ToInputRenderLink` constructor as a fallible factory: it computes
`node.outputs.indexOf(fromSlot)` and throws when the result is `-1`
(the slot was not found), otherwise records the index. -/
def ToInputRenderLink.make (node : LGraphNode) (fromSlot : INodeOutputSlot) :
    Except String ToInputRenderLink :=
  let outputIndex := slotIndexOf node.outputs fromSlot
  if outputIndex = -1 then
    .error ("Creating render link failed: Slot index not found.")
  else
    .ok { node := node, fromSlot := fromSlot, fromSlotIndex := outputIndex }

/-- `canConnectToOutput(): false`. -/
def ToInputRenderLink.canConnectToOutput (_ : ToInputRenderLink) : Bool :=
  false

/-- `connectToOutput()`: always throws. -/
def ToInputRenderLink.connectToOutput (_ : ToInputRenderLink) : Except String Unit :=
  .error ("ToInputRenderLink cannot connect to an output.")

/-- `connectToRerouteOutput()`: always throws. -/
def ToInputRenderLink.connectToRerouteOutput (_ : ToInputRenderLink) :
    Except String Unit :=
  .error ("ToInputRenderLink cannot connect to an output.")

/-- A node with no output slots and a slot it does not contain, for the
C8 counterexample. -/
def emptyOutputsNode : LGraphNode := { id := 1, outputs := [] }

/-- A sample slot that `emptyOutputsNode` does not hold. -/
def demoSlot : INodeOutputSlot := { name := "out", type := .num 0 }

theorem slotIndexOf_ge_neg_one : ∀ (l : List INodeOutputSlot) (s : INodeOutputSlot),
    -1 ≤ slotIndexOf l s := by
  intro l s
  induction l with
  | nil => simp [slotIndexOf]
  | cons x xs ih =>
      simp only [slotIndexOf]
      by_cases h1 : x = s
      · simp [h1]
      · rw [if_neg h1]
        by_cases h2 : slotIndexOf xs s = -1
        · simp [h2]
        · rw [if_neg h2]
          omega

theorem slotIndexOf_eq_neg_one_iff : ∀ (l : List INodeOutputSlot) (s : INodeOutputSlot),
    slotIndexOf l s = -1 ↔ s ∉ l := by
  intro l s
  induction l with
  | nil => simp [slotIndexOf]
  | cons x xs ih =>
      simp only [slotIndexOf]
      by_cases h1 : x = s
      · simp [h1]
      · rw [if_neg h1]
        by_cases h2 : slotIndexOf xs s = -1
        · rw [if_pos h2]
          constructor
          · intro _ hmem
            rcases List.mem_cons.mp hmem with he | he
            · exact h1 he.symm
            · exact (ih.mp h2) he
          · intro _
            rfl
        · rw [if_neg h2]
          have hge := slotIndexOf_ge_neg_one xs s
          constructor
          · intro hcontra
            exfalso
            omega
          · intro hnot
            exfalso
            apply h2
            apply ih.mpr
            intro hmem
            exact hnot (List.mem_cons_of_mem _ hmem)

/-- C8 counterexample: the `ToInputRenderLink` constructor — core code
cited by the claim — throws for a not-found condition (the slot is not in
the node's outputs), so the connect-to-output methods are not the sole
throwing code path and not-found conditions are not uniformly
non-throwing. -/
theorem renderLink_constructor_throws_counterexample :
    ToInputRenderLink.make emptyOutputsNode demoSlot =
      .error ("Creating render link failed: Slot index not found.") := rfl

/-- C8 (amended): the link/reroute topology operations are total (they
are plain functions in this development and return absent values for
not-found conditions); in the render-link layer, `connectToOutput` and
`connectToRerouteOutput` always throw, and additionally the
`ToInputRenderLink` constructor throws exactly when the given slot is
absent from the node's outputs — a not-found condition that does raise an
exception. -/
theorem renderLink_error_spec (node : LGraphNode) (slot : INodeOutputSlot)
    (rl : ToInputRenderLink) :
    ((ToInputRenderLink.make node slot).isOk = true ↔ slot ∈ node.outputs) ∧
    rl.connectToOutput = .error ("ToInputRenderLink cannot connect to an output.") ∧
    rl.connectToRerouteOutput =
      .error ("ToInputRenderLink cannot connect to an output.") := by
  refine ⟨?_, rfl, rfl⟩
  unfold ToInputRenderLink.make
  by_cases h : slotIndexOf node.outputs slot = -1
  · simp only [h, if_pos rfl]
    simp [Except.isOk, Except.toBool, (slotIndexOf_eq_neg_one_iff node.outputs slot).mp h]
  · rw [if_neg h]
    simp only [Except.isOk, Except.toBool, true_iff]
    by_contra hmem
    exact h ((slotIndexOf_eq_neg_one_iff node.outputs slot).mpr hmem)

/-- Query operations as state transformers.  The source bodies of
`getReroutes`, `getFirstReroute`, `findNextReroute`, `getOriginNode`,
`getTargetNode`, `hasOrigin` and `hasTarget` contain only reads — no
assignment to any network collection or link field — so their embedding
as transformers of the network state returns the state unchanged; the
pure result components are the definitions above, translated from the
same bodies. -/
def LLink.getReroutesS (net : LinkNetwork) (seg : LinkSegment) :
    List Reroute × LinkNetwork :=
  (LLink.getReroutes net seg, net)

/-- `getFirstReroute` as a state transformer over the network. -/
def LLink.getFirstRerouteS (net : LinkNetwork) (seg : LinkSegment) :
    Option Reroute × LinkNetwork :=
  (LLink.getFirstReroute net seg, net)

/-- `findNextReroute` as a state transformer over the network. -/
def LLink.findNextRerouteS (net : LinkNetwork) (seg : LinkSegment)
    (target : Int) : RerouteSearchResult × LinkNetwork :=
  (LLink.findNextReroute net seg target, net)

/-- `getOriginNode` as a state transformer over the network. -/
def LLink.getOriginNodeS (net : LinkNetwork) (linkId : Int) :
    Option LGraphNode × LinkNetwork :=
  (LLink.getOriginNode net linkId, net)

/-- `getTargetNode` as a state transformer over the network. -/
def LLink.getTargetNodeS (net : LinkNetwork) (linkId : Int) :
    Option LGraphNode × LinkNetwork :=
  (LLink.getTargetNode net linkId, net)

/-- `hasOrigin` as a state transformer over the receiver link. -/
def LLink.hasOriginS (l : LLink) (nodeId outputIndex : Int) : Bool × LLink :=
  (l.hasOrigin nodeId outputIndex, l)

/-- `hasTarget` as a state transformer over the receiver link. -/
def LLink.hasTargetS (l : LLink) (nodeId inputIndex : Int) : Bool × LLink :=
  (l.hasTarget nodeId inputIndex, l)

/-- C9: the seven query operations leave the network's `links`,
`reroutes` and `floatingLinks` collections and the receiver link's fields
unchanged — in particular a failed lookup (absent, empty or `undefined`
result) mutates nothing.  In the embedding this is the frame property of
their state-transformer forms, which mirrors the read-only source
bodies. -/
theorem queries_mutate_nothing (net : LinkNetwork) (seg : LinkSegment)
    (target linkId nodeId slotIndex : Int) (l : LLink) :
    (LLink.getReroutesS net seg).2 = net ∧
    (LLink.getFirstRerouteS net seg).2 = net ∧
    (LLink.findNextRerouteS net seg target).2 = net ∧
    (LLink.getOriginNodeS net linkId).2 = net ∧
    (LLink.getTargetNodeS net linkId).2 = net ∧
    (LLink.hasOriginS l nodeId slotIndex).2 = l ∧
    (LLink.hasTargetS l nodeId slotIndex).2 = l :=
  ⟨rfl, rfl, rfl, rfl, rfl, rfl, rfl⟩
